import Mathlib

/-!
# Verification of the pivx-rpc-rs response-decoding layer

This file shallowly embeds the serde-based JSON decoding of the
`pivx-rpc-rs` crate (`src/lib.rs`) and the retry/throttle contracts of its
generated RPC client, and proves properties of the decoders.

JSON numbers are modelled as exact rationals (`Rat`); integer-typed Rust
fields (`i32`, `i64`, `u32`) decode through range- and integrality-checked
helpers, mirroring serde's behaviour of rejecting fractional or
out-of-range numbers.  Objects are association lists of key/value pairs in
source order.  serde's positional decoding of structs from JSON arrays is
not modelled; every decoder here only accepts the JSON forms the claims
are about.
-/

/-- A JSON value.  Objects keep their fields as an ordered association list. -/
inductive Json : Type where
  | null : Json
  | bool : Bool → Json
  | num : Rat → Json
  | str : String → Json
  | arr : List Json → Json
  | obj : List (String × Json) → Json

namespace Json

/-- serde-derive field lookup: a declared field present exactly once yields
`some (some v)`, an absent field yields `some none`, and a duplicated
declared field is an error (`none`), matching serde's
"duplicate field" rejection.  Unknown fields are simply never looked up. -/
def getUnique (fields : List (String × Json)) (name : String) : Option (Option Json) :=
  match fields.filter (fun p => p.1 == name) with
  | [] => some none
  | [p] => some (some p.2)
  | _ => none

/-- A required struct field: must be present (exactly once) and decode. -/
def reqField (fields : List (String × Json)) (name : String)
    (dec : Json → Option α) : Option α :=
  match getUnique fields name with
  | some (some v) => dec v
  | _ => none

/-- An `Option<T>` struct field: missing or `null` gives `none`; a present
non-null value must decode. -/
def optField (fields : List (String × Json)) (name : String)
    (dec : Json → Option α) : Option (Option α) :=
  match getUnique fields name with
  | some none => some none
  | some (some .null) => some none
  | some (some v) => (dec v).map some
  | none => none

/-- A `#[serde(default)]` struct field: missing gives the default; a present
value (even `null`) must decode. -/
def defField (fields : List (String × Json)) (name : String)
    (dec : Json → Option α) (dflt : α) : Option α :=
  match getUnique fields name with
  | some none => some dflt
  | some (some v) => dec v
  | none => none

/-- Decode a JSON string. -/
def asStr : Json → Option String
  | .str s => some s
  | _ => none

/-- Decode a JSON boolean. -/
def asBool : Json → Option Bool
  | .bool b => some b
  | _ => none

/-- Decode any JSON number (Rust `f64` or `serde_json::Number` fields). -/
def asNum : Json → Option Rat
  | .num q => some q
  | _ => none

/-- Decode a Rust `i64`: an integral JSON number within `i64` range. -/
def asI64 : Json → Option Int
  | .num q =>
      if q.den = 1 ∧ -(2 ^ 63) ≤ q.num ∧ q.num < 2 ^ 63 then some q.num else none
  | _ => none

/-- Decode a Rust `i32`: an integral JSON number within `i32` range. -/
def asI32 : Json → Option Int
  | .num q =>
      if q.den = 1 ∧ -(2 ^ 31) ≤ q.num ∧ q.num < 2 ^ 31 then some q.num else none
  | _ => none

/-- Decode a Rust `u32`: an integral JSON number within `u32` range. -/
def asU32 : Json → Option Int
  | .num q =>
      if q.den = 1 ∧ 0 ≤ q.num ∧ q.num < 2 ^ 32 then some q.num else none
  | _ => none

/-- Decode a JSON array elementwise (Rust `Vec<T>`). -/
def asList (dec : Json → Option α) : Json → Option (List α)
  | .arr xs => xs.mapM dec
  | _ => none

end Json

/-- `ScriptSig` of `src/lib.rs`: `{ asm: String, hex: String }`. -/
structure ScriptSig where
  asm : String
  hex : String
deriving DecidableEq

/-- serde decode of `ScriptSig`. -/
def ScriptSig.fromJson : Json → Option ScriptSig
  | .obj fields => do
      let asm ← Json.reqField fields "asm" Json.asStr
      let hex ← Json.reqField fields "hex" Json.asStr
      pure ⟨asm, hex⟩
  | _ => none

/-- `VinCoinbase` of `src/lib.rs`: `{ coinbase: String, sequence: i64 }`,
field names unrenamed, both fields required, unknown fields ignored. -/
structure VinCoinbase where
  coinbase : String
  sequence : Int
deriving DecidableEq

/-- serde decode of `VinCoinbase`. -/
def VinCoinbase.fromJson : Json → Option VinCoinbase
  | .obj fields => do
      let coinbase ← Json.reqField fields "coinbase" Json.asStr
      let sequence ← Json.reqField fields "sequence" Json.asI64
      pure ⟨coinbase, sequence⟩
  | _ => none

/-- `VinTx` of `src/lib.rs` (`rename_all = "camelCase"`): every field is an
`Option`, so each of `coinbase`, `txid`, `vout`, `scriptSig`, `sequence`
may be missing or `null`. -/
structure VinTx where
  coinbase : Option String
  txid : Option String
  vout : Option Int
  script_sig : Option ScriptSig
  sequence : Option Int
deriving DecidableEq

/-- serde decode of `VinTx`. -/
def VinTx.fromJson : Json → Option VinTx
  | .obj fields => do
      let coinbase ← Json.optField fields "coinbase" Json.asStr
      let txid ← Json.optField fields "txid" Json.asStr
      let vout ← Json.optField fields "vout" Json.asI32
      let ss ← Json.optField fields "scriptSig" ScriptSig.fromJson
      let sequence ← Json.optField fields "sequence" Json.asI64
      pure ⟨coinbase, txid, vout, ss, sequence⟩
  | _ => none

/-- `Vin` of `src/lib.rs`: `#[serde(untagged)]` with variants
`Coinbase(VinCoinbase)` then `Tx(VinTx)`. -/
inductive Vin : Type where
  | Coinbase : VinCoinbase → Vin
  | Tx : VinTx → Vin
deriving DecidableEq

/-- serde decode of the untagged `Vin`: try `Coinbase` first, then `Tx`. -/
def Vin.fromJson (j : Json) : Option Vin :=
  match VinCoinbase.fromJson j with
  | some cb => some (Vin.Coinbase cb)
  | none => (VinTx.fromJson j).map Vin.Tx

/-- `ScriptPubKey` of `src/lib.rs`: `asm` and `hex` required, `reqSigs`
(`Option<i64>`), `type` (`Option<String>`) and `addresses`
(`Option<Vec<String>>`) optional. -/
structure ScriptPubKey where
  asm : String
  hex : String
  req_sigs : Option Int
  script_type : Option String
  addresses : Option (List String)
deriving DecidableEq

/-- serde decode of `ScriptPubKey`. -/
def ScriptPubKey.fromJson : Json → Option ScriptPubKey
  | .obj fields => do
      let asm ← Json.reqField fields "asm" Json.asStr
      let hex ← Json.reqField fields "hex" Json.asStr
      let reqSigs ← Json.optField fields "reqSigs" Json.asI64
      let ty ← Json.optField fields "type" Json.asStr
      let addrs ← Json.optField fields "addresses" (Json.asList Json.asStr)
      pure ⟨asm, hex, reqSigs, ty, addrs⟩
  | _ => none

/-- `Vout` of `src/lib.rs`: `value: f64` (modelled as an exact JSON number),
`n: i32`, `scriptPubKey: ScriptPubKey`, all required. -/
structure Vout where
  value : Rat
  n : Int
  script_pub_key : ScriptPubKey
deriving DecidableEq

/-- serde decode of `Vout`. -/
def Vout.fromJson : Json → Option Vout
  | .obj fields => do
      let value ← Json.reqField fields "value" Json.asNum
      let n ← Json.reqField fields "n" Json.asI32
      let spk ← Json.reqField fields "scriptPubKey" ScriptPubKey.fromJson
      pure ⟨value, n, spk⟩
  | _ => none

/-- `TxOut` of `src/lib.rs` (`rename_all = "camelCase"`): `bestblock`,
`confirmations: i32`, `value: f64`, `scriptPubKey`, `coinbase: bool`,
all required. -/
structure TxOut where
  bestblock : String
  confirmations : Int
  value : Rat
  script_pub_key : ScriptPubKey
  coinbase : Bool
deriving DecidableEq

/-- serde decode of `TxOut`. -/
def TxOut.fromJson : Json → Option TxOut
  | .obj fields => do
      let bestblock ← Json.reqField fields "bestblock" Json.asStr
      let confirmations ← Json.reqField fields "confirmations" Json.asI32
      let value ← Json.reqField fields "value" Json.asNum
      let spk ← Json.reqField fields "scriptPubKey" ScriptPubKey.fromJson
      let coinbase ← Json.reqField fields "coinbase" Json.asBool
      pure ⟨bestblock, confirmations, value, spk, coinbase⟩
  | _ => none

/-- `GetTxOutReply` of `src/lib.rs`: `#[serde(untagged)]` with variants
`Null(())` then `TxOut(TxOut)`. -/
inductive GetTxOutReply : Type where
  | Null : Unit → GetTxOutReply
  | TxOut : TxOut → GetTxOutReply
deriving DecidableEq

/-- serde decode of the Rust unit type `()`: accepts exactly JSON `null`. -/
def Json.asUnit : Json → Option Unit
  | .null => some ()
  | _ => none

/-- serde decode of the untagged `GetTxOutReply`: try `Null` first,
then `TxOut`. -/
def GetTxOutReply.fromJson (j : Json) : Option GetTxOutReply :=
  match Json.asUnit j with
  | some u => some (GetTxOutReply.Null u)
  | none => (TxOut.fromJson j).map GetTxOutReply.TxOut

/-- `MemPoolTx` of `src/lib.rs`: eleven `serde_json::Number` fields
(modelled as exact rationals), `wtxid: String`, `depends: Vec<String>`,
all required, field names unrenamed. -/
structure MemPoolTx where
  size : Rat
  fee : Rat
  modifiedfee : Rat
  time : Rat
  height : Rat
  descendantcount : Rat
  descendantsize : Rat
  descendantfees : Rat
  ancestorcount : Rat
  ancestorsize : Rat
  ancestorfees : Rat
  wtxid : String
  depends : List String
deriving DecidableEq

/-- Decode of the first seven `MemPoolTx` fields (the decode of the
thirteen-field struct is split in two groups only to keep the compiled
code small; together the groups are exactly serde's field list). -/
def MemPoolTx.fieldsA (fields : List (String × Json)) :
    Option (Rat × Rat × Rat × Rat × Rat × Rat × Rat) := do
  let size ← Json.reqField fields "size" Json.asNum
  let fee ← Json.reqField fields "fee" Json.asNum
  let modifiedfee ← Json.reqField fields "modifiedfee" Json.asNum
  let time ← Json.reqField fields "time" Json.asNum
  let height ← Json.reqField fields "height" Json.asNum
  let descendantcount ← Json.reqField fields "descendantcount" Json.asNum
  let descendantsize ← Json.reqField fields "descendantsize" Json.asNum
  pure (size, fee, modifiedfee, time, height, descendantcount, descendantsize)

/-- Decode of the remaining six `MemPoolTx` fields. -/
def MemPoolTx.fieldsB (fields : List (String × Json)) :
    Option (Rat × Rat × Rat × Rat × String × List String) := do
  let descendantfees ← Json.reqField fields "descendantfees" Json.asNum
  let ancestorcount ← Json.reqField fields "ancestorcount" Json.asNum
  let ancestorsize ← Json.reqField fields "ancestorsize" Json.asNum
  let ancestorfees ← Json.reqField fields "ancestorfees" Json.asNum
  let wtxid ← Json.reqField fields "wtxid" Json.asStr
  let depends ← Json.reqField fields "depends" (Json.asList Json.asStr)
  pure (descendantfees, ancestorcount, ancestorsize, ancestorfees, wtxid, depends)

/-- serde decode of `MemPoolTx`. -/
def MemPoolTx.fromJson : Json → Option MemPoolTx
  | .obj fields => do
      let (size, fee, modifiedfee, time, height, descendantcount, descendantsize) ←
        MemPoolTx.fieldsA fields
      let (descendantfees, ancestorcount, ancestorsize, ancestorfees, wtxid, depends) ←
        MemPoolTx.fieldsB fields
      pure ⟨size, fee, modifiedfee, time, height, descendantcount, descendantsize,
            descendantfees, ancestorcount, ancestorsize, ancestorfees, wtxid, depends⟩
  | _ => none

/-- `RawMemPool` of `src/lib.rs`: `#[serde(untagged)]` with variants
`Verbose(HashMap<String, MemPoolTx>)` then `TxIds(Vec<String>)`.  The hash
map is modelled as its entry list in response order. -/
inductive RawMemPool : Type where
  | Verbose : List (String × MemPoolTx) → RawMemPool
  | TxIds : List String → RawMemPool
deriving DecidableEq

/-- serde decode of `HashMap<String, MemPoolTx>`: any JSON object whose
every value decodes as a `MemPoolTx`. -/
def decodeMemPoolMap : Json → Option (List (String × MemPoolTx))
  | .obj fields => fields.mapM (fun p => (MemPoolTx.fromJson p.2).map (fun tx => (p.1, tx)))
  | _ => none

/-- serde decode of the untagged `RawMemPool`: try `Verbose` first,
then `TxIds`. -/
def RawMemPool.fromJson (j : Json) : Option RawMemPool :=
  match decodeMemPoolMap j with
  | some m => some (RawMemPool.Verbose m)
  | none => (Json.asList Json.asStr j).map RawMemPool.TxIds

/-- `ShieldPoolValue` of `src/lib.rs` (`rename_all = "camelCase"`, derives
`Default`): `chainValue` and `valueDelta`, both `f64`. -/
structure ShieldPoolValue where
  chain_value : Rat
  value_delta : Rat
deriving DecidableEq

/-- The `Default` instance of `ShieldPoolValue`: both fields `0.0`. -/
def ShieldPoolValue.default : ShieldPoolValue := ⟨0, 0⟩

/-- serde decode of `ShieldPoolValue`. -/
def ShieldPoolValue.fromJson : Json → Option ShieldPoolValue
  | .obj fields => do
      let cv ← Json.reqField fields "chainValue" Json.asNum
      let vd ← Json.reqField fields "valueDelta" Json.asNum
      pure ⟨cv, vd⟩
  | _ => none

/-- `Block` of `src/lib.rs` (block header, result of `getblockheader`):
field names unrenamed; `acc_checkpoint` and `shield_pool_value` carry
`#[serde(default)]`; `previousblockhash` is optional. -/
structure Block where
  hash : String
  confirmations : Int
  height : Int
  version : Int
  merkleroot : String
  time : Int
  mediantime : Int
  nonce : Int
  bits : String
  difficulty : Rat
  chainwork : String
  acc_checkpoint : String
  shield_pool_value : ShieldPoolValue
  previousblockhash : Option String
deriving DecidableEq

/-- Decode of the first seven `Block` fields (split in two groups only to
keep the compiled code small; together the groups are exactly serde's
field list). -/
def Block.fieldsA (fields : List (String × Json)) :
    Option (String × Int × Int × Int × String × Int × Int) := do
  let hash ← Json.reqField fields "hash" Json.asStr
  let confirmations ← Json.reqField fields "confirmations" Json.asI64
  let height ← Json.reqField fields "height" Json.asI64
  let version ← Json.reqField fields "version" Json.asI32
  let merkleroot ← Json.reqField fields "merkleroot" Json.asStr
  let time ← Json.reqField fields "time" Json.asI64
  let mediantime ← Json.reqField fields "mediantime" Json.asI64
  pure (hash, confirmations, height, version, merkleroot, time, mediantime)

/-- Decode of the remaining seven `Block` fields. -/
def Block.fieldsB (fields : List (String × Json)) :
    Option (Int × String × Rat × String × String × ShieldPoolValue × Option String) := do
  let nonce ← Json.reqField fields "nonce" Json.asI64
  let bits ← Json.reqField fields "bits" Json.asStr
  let difficulty ← Json.reqField fields "difficulty" Json.asNum
  let chainwork ← Json.reqField fields "chainwork" Json.asStr
  let accCheckpoint ← Json.defField fields "acc_checkpoint" Json.asStr ""
  let spv ← Json.defField fields "shield_pool_value" ShieldPoolValue.fromJson
    ShieldPoolValue.default
  let prev ← Json.optField fields "previousblockhash" Json.asStr
  pure (nonce, bits, difficulty, chainwork, accCheckpoint, spv, prev)

/-- serde decode of `Block`. -/
def Block.fromJson : Json → Option Block
  | .obj fields => do
      let (hash, confirmations, height, version, merkleroot, time, mediantime) ←
        Block.fieldsA fields
      let (nonce, bits, difficulty, chainwork, accCheckpoint, spv, prev) ←
        Block.fieldsB fields
      pure ⟨hash, confirmations, height, version, merkleroot, time, mediantime,
            nonce, bits, difficulty, chainwork, accCheckpoint, spv, prev⟩
  | _ => none

/-- `Transaction` of `src/lib.rs`: `txid` optional, `version: i32`,
`type: i32` (field renamed `type`), `size: u32`, `locktime: u32`,
`vin: Vec<Vin>`, `vout: Vec<Vout>`, `hex` required, and four optional
trailing fields. -/
structure Transaction where
  txid : Option String
  version : Int
  tx_type : Int
  size : Int
  locktime : Int
  vin : List Vin
  vout : List Vout
  hex : String
  blockhash : Option String
  confirmations : Option Int
  time : Option Int
  blocktime : Option Int
deriving DecidableEq

/-- Decode of the first six `Transaction` fields (split in two groups only
to keep the compiled code small; together the groups are exactly serde's
field list). -/
def Transaction.fieldsA (fields : List (String × Json)) :
    Option (Option String × Int × Int × Int × Int × List Vin) := do
  let txid ← Json.optField fields "txid" Json.asStr
  let version ← Json.reqField fields "version" Json.asI32
  let txType ← Json.reqField fields "type" Json.asI32
  let size ← Json.reqField fields "size" Json.asU32
  let locktime ← Json.reqField fields "locktime" Json.asU32
  let vin ← Json.reqField fields "vin" (Json.asList Vin.fromJson)
  pure (txid, version, txType, size, locktime, vin)

/-- Decode of the remaining six `Transaction` fields. -/
def Transaction.fieldsB (fields : List (String × Json)) :
    Option (List Vout × String × Option String × Option Int × Option Int × Option Int) := do
  let vout ← Json.reqField fields "vout" (Json.asList Vout.fromJson)
  let hex ← Json.reqField fields "hex" Json.asStr
  let blockhash ← Json.optField fields "blockhash" Json.asStr
  let confirmations ← Json.optField fields "confirmations" Json.asI32
  let time ← Json.optField fields "time" Json.asI32
  let blocktime ← Json.optField fields "blocktime" Json.asI32
  pure (vout, hex, blockhash, confirmations, time, blocktime)

/-- serde decode of `Transaction`. -/
def Transaction.fromJson : Json → Option Transaction
  | .obj fields => do
      let (txid, version, txType, size, locktime, vin) ← Transaction.fieldsA fields
      let (vout, hex, blockhash, confirmations, time, blocktime) ←
        Transaction.fieldsB fields
      pure ⟨txid, version, txType, size, locktime, vin, vout, hex,
            blockhash, confirmations, time, blocktime⟩
  | _ => none

/-- `FullBlock` of `src/lib.rs` (result of `getblock` at verbosity 2):
field names unrenamed; `acc_checkpoint` and `finalsaplingroot` carry
`#[serde(default)]`; `tx: Vec<Transaction>`; four optional trailing
fields. -/
structure FullBlock where
  hash : String
  confirmations : Int
  size : Int
  height : Int
  version : Int
  merkleroot : String
  acc_checkpoint : String
  finalsaplingroot : String
  tx : List Transaction
  time : Int
  mediantime : Int
  nonce : Int
  bits : String
  difficulty : Rat
  chainwork : String
  previousblockhash : Option String
  nextblockhash : Option String
  stakemodifier : Option String
  hashproofofstake : Option String
deriving DecidableEq

/-- Decode of the first six `FullBlock` fields (split in three groups only
to keep the compiled code small; together the groups are exactly serde's
field list). -/
def FullBlock.fieldsA (fields : List (String × Json)) :
    Option (String × Int × Int × Int × Int × String) := do
  let hash ← Json.reqField fields "hash" Json.asStr
  let confirmations ← Json.reqField fields "confirmations" Json.asI32
  let size ← Json.reqField fields "size" Json.asU32
  let height ← Json.reqField fields "height" Json.asI64
  let version ← Json.reqField fields "version" Json.asI32
  let merkleroot ← Json.reqField fields "merkleroot" Json.asStr
  pure (hash, confirmations, size, height, version, merkleroot)

/-- Decode of the middle seven `FullBlock` fields. -/
def FullBlock.fieldsB (fields : List (String × Json)) :
    Option (String × String × List Transaction × Int × Int × Int × String) := do
  let accCheckpoint ← Json.defField fields "acc_checkpoint" Json.asStr ""
  let finalsaplingroot ← Json.defField fields "finalsaplingroot" Json.asStr ""
  let tx ← Json.reqField fields "tx" (Json.asList Transaction.fromJson)
  let time ← Json.reqField fields "time" Json.asU32
  let mediantime ← Json.reqField fields "mediantime" Json.asU32
  let nonce ← Json.reqField fields "nonce" Json.asI64
  let bits ← Json.reqField fields "bits" Json.asStr
  pure (accCheckpoint, finalsaplingroot, tx, time, mediantime, nonce, bits)

/-- Decode of the last six `FullBlock` fields. -/
def FullBlock.fieldsC (fields : List (String × Json)) :
    Option (Rat × String × Option String × Option String × Option String × Option String) := do
  let difficulty ← Json.reqField fields "difficulty" Json.asNum
  let chainwork ← Json.reqField fields "chainwork" Json.asStr
  let prev ← Json.optField fields "previousblockhash" Json.asStr
  let next ← Json.optField fields "nextblockhash" Json.asStr
  let stakemodifier ← Json.optField fields "stakemodifier" Json.asStr
  let hashproofofstake ← Json.optField fields "hashproofofstake" Json.asStr
  pure (difficulty, chainwork, prev, next, stakemodifier, hashproofofstake)

/-- serde decode of `FullBlock`. -/
def FullBlock.fromJson : Json → Option FullBlock
  | .obj fields => do
      let (hash, confirmations, size, height, version, merkleroot) ←
        FullBlock.fieldsA fields
      let (accCheckpoint, finalsaplingroot, tx, time, mediantime, nonce, bits) ←
        FullBlock.fieldsB fields
      let (difficulty, chainwork, prev, next, stakemodifier, hashproofofstake) ←
        FullBlock.fieldsC fields
      pure ⟨hash, confirmations, size, height, version, merkleroot, accCheckpoint,
            finalsaplingroot, tx, time, mediantime, nonce, bits, difficulty,
            chainwork, prev, next, stakemodifier, hashproofofstake⟩
  | _ => none

/-- The three-way result of `getblockinfo` declared in the `enum:` section
of the `jsonrpc_client!` invocation in `src/lib.rs`:
`Zero(SerializedData) | One(Block) | Two(FullBlock)`. -/
inductive GetBlockInfoReply : Type where
  | Zero : String → GetBlockInfoReply
  | One : Block → GetBlockInfoReply
  | Two : FullBlock → GetBlockInfoReply
deriving DecidableEq

/-- Modelled from the spec: the decode step of the generated `getblockinfo`
method (the `jsonrpc_client!` macro implementation is not part of this
repository's sources).  Per the spec, the resolver "must decode according
to the verbosity the caller requested, not by guessing from shape":
verbosity 0 decodes the raw serialized hex string, verbosity 1 the
header-only `Block`, verbosity 2 the `FullBlock` with its transaction
list; no other verbosity is accepted and no alternate schema is tried. -/
def getblockinfo_decode (verbosity : Nat) (j : Json) : Option GetBlockInfoReply :=
  match verbosity with
  | 0 => (Json.asStr j).map GetBlockInfoReply.Zero
  | 1 => (Block.fromJson j).map GetBlockInfoReply.One
  | 2 => (FullBlock.fromJson j).map GetBlockInfoReply.Two
  | _ => none

/-- The decode step of the generated `getrawmempool` method: the
`single:`-section methods of the `jsonrpc_client!` invocation uniformly
deserialize the JSON-RPC `result` payload into the declared result type —
here the untagged `RawMemPool` — so the caller-supplied `format` flag is
only serialized into the request parameters and plays no part in
decoding. -/
def getrawmempool_decode (_format : Bool) (j : Json) : Option RawMemPool :=
  RawMemPool.fromJson j

/-- The decode step of the generated `gettxout` method: the JSON-RPC
`result` payload is deserialized into the untagged `GetTxOutReply`. -/
def gettxout_decode (j : Json) : Option GetTxOutReply :=
  GetTxOutReply.fromJson j

/-- serde serialization of an `Option` field: `None` serializes as
JSON `null`, `Some v` as the serialization of `v`. -/
def Json.ofOption (f : α → Json) : Option α → Json
  | none => Json.null
  | some a => f a

/-- serde serialization of `ScriptSig`. -/
def ScriptSig.toJson (s : ScriptSig) : Json :=
  .obj [("asm", .str s.asm), ("hex", .str s.hex)]

/-- serde serialization of `ScriptPubKey` (fields in declaration order,
with the source's renames). -/
def ScriptPubKey.toJson (s : ScriptPubKey) : Json :=
  .obj [("asm", .str s.asm), ("hex", .str s.hex),
        ("reqSigs", Json.ofOption (fun n => .num n) s.req_sigs),
        ("type", Json.ofOption .str s.script_type),
        ("addresses", Json.ofOption (fun l => .arr (l.map .str)) s.addresses)]

/-- serde serialization of `VinCoinbase`. -/
def VinCoinbase.toJson (c : VinCoinbase) : Json :=
  .obj [("coinbase", .str c.coinbase), ("sequence", .num c.sequence)]

/-- serde serialization of `VinTx` (camelCase field names). -/
def VinTx.toJson (t : VinTx) : Json :=
  .obj [("coinbase", Json.ofOption .str t.coinbase),
        ("txid", Json.ofOption .str t.txid),
        ("vout", Json.ofOption (fun n => .num n) t.vout),
        ("scriptSig", Json.ofOption ScriptSig.toJson t.script_sig),
        ("sequence", Json.ofOption (fun n => .num n) t.sequence)]

/-- serde serialization of the untagged `Vin`: the chosen variant's
content is serialized directly, with no tag. -/
def Vin.toJson : Vin → Json
  | .Coinbase cb => cb.toJson
  | .Tx t => t.toJson

/-- serde serialization of `TxOut` (camelCase field names). -/
def TxOut.toJson (t : TxOut) : Json :=
  .obj [("bestblock", .str t.bestblock), ("confirmations", .num t.confirmations),
        ("value", .num t.value), ("scriptPubKey", t.script_pub_key.toJson),
        ("coinbase", .bool t.coinbase)]

/-- serde serialization of the untagged `GetTxOutReply`: `Null(())`
serializes as JSON `null`, `TxOut` as the output object. -/
def GetTxOutReply.toJson : GetTxOutReply → Json
  | .Null _ => .null
  | .TxOut t => t.toJson

/-- serde serialization of `MemPoolTx`. -/
def MemPoolTx.toJson (m : MemPoolTx) : Json :=
  .obj [("size", .num m.size), ("fee", .num m.fee), ("modifiedfee", .num m.modifiedfee),
        ("time", .num m.time), ("height", .num m.height),
        ("descendantcount", .num m.descendantcount),
        ("descendantsize", .num m.descendantsize),
        ("descendantfees", .num m.descendantfees),
        ("ancestorcount", .num m.ancestorcount),
        ("ancestorsize", .num m.ancestorsize),
        ("ancestorfees", .num m.ancestorfees),
        ("wtxid", .str m.wtxid),
        ("depends", .arr (m.depends.map .str))]

/-- serde serialization of the untagged `RawMemPool`: the verbose map
serializes as a JSON object (entries in map order), the id list as a JSON
array of strings. -/
def RawMemPool.toJson : RawMemPool → Json
  | .Verbose m => .obj (m.map (fun p => (p.1, p.2.toJson)))
  | .TxIds l => .arr (l.map .str)

/-- The result of one attempt of the wrapped unit of work, as classified
by the error taxonomy of the spec: success, a transient (transport-level)
failure, or a non-transient (protocol or decode) failure. -/
inductive WorkResult : Type where
  | success : WorkResult
  | transient : WorkResult
  | fatal : WorkResult
deriving DecidableEq

/-- How a wrapped call ended: decoded result, retry budget exhausted by
persistent transient failures, or a non-transient failure surfaced
unchanged. -/
inductive CallEnd : Type where
  | ok : CallEnd
  | exhausted : CallEnd
  | fatal : CallEnd
deriving DecidableEq

/-- The observable outcome of a wrapped call: how it ended, how many
attempts were made, and how many constant inter-attempt delays were
waited (one wait immediately before every attempt but the first). -/
structure RetryResult where
  outcome : CallEnd
  attempts : Nat
  waits : Nat
deriving DecidableEq

/-- Modelled from the spec: the Retry Policy loop of the
`jsonrpc_client!` macro (its implementation is not part of this
repository's sources).  `work i` is the classified result of attempt `i`
(0-based); `remaining` is the remaining retry budget.  A transient
failure with budget left waits the configured delay and retries;
success and non-transient failures return immediately; a transient
failure with no budget left ends as exhausted-retries. -/
def retryGo (work : Nat → WorkResult) (attempt : Nat) : Nat → RetryResult
  | 0 =>
    match work attempt with
    | .success => ⟨.ok, attempt + 1, attempt⟩
    | .transient => ⟨.exhausted, attempt + 1, attempt⟩
    | .fatal => ⟨.fatal, attempt + 1, attempt⟩
  | remaining + 1 =>
    match work attempt with
    | .success => ⟨.ok, attempt + 1, attempt⟩
    | .transient => retryGo work (attempt + 1) remaining
    | .fatal => ⟨.fatal, attempt + 1, attempt⟩

/-- Modelled from the spec: a whole wrapped call under the Retry Policy
with retry budget `max_retries` (`max_retries = 0` means exactly one
attempt, no retry). -/
def retryRun (work : Nat → WorkResult) (max_retries : Nat) : RetryResult :=
  retryGo work 0 max_retries

/-- Modelled from the spec: the Call Throttle's shared state — the set of
calls currently holding one of the transport-round-trip slots, as a
duplicate-free list of call identifiers. -/
structure ThrottleState where
  holders : List Nat
deriving DecidableEq

/-- An observable event of the Call Throttle: a call acquiring a slot
(beginning its transport round-trip) or releasing it. -/
inductive ThrottleEvent : Type where
  | acquire : Nat → ThrottleEvent
  | release : Nat → ThrottleEvent
deriving DecidableEq

/-- Modelled from the spec: one step of the Call Throttle with limit `N`.
`acquire` is enabled only while fewer than `N` round-trips are
outstanding (otherwise the caller blocks); `release` frees the caller's
slot. -/
inductive ThrottleStep (N : Nat) : ThrottleState → ThrottleEvent → ThrottleState → Prop where
  | acquire {s : ThrottleState} {c : Nat} (hni : c ∉ s.holders)
      (hlt : s.holders.length < N) :
      ThrottleStep N s (.acquire c) ⟨c :: s.holders⟩
  | release {s : ThrottleState} {c : Nat} (hmem : c ∈ s.holders) :
      ThrottleStep N s (.release c) ⟨s.holders.erase c⟩

/-- Modelled from the spec: a finite interleaving of throttle events,
stepping from one state to another. -/
inductive ThrottleTrace (N : Nat) : ThrottleState → List ThrottleEvent → ThrottleState → Prop where
  | nil {s : ThrottleState} : ThrottleTrace N s [] s
  | cons {s s' s'' : ThrottleState} {e : ThrottleEvent} {tr : List ThrottleEvent}
      (hstep : ThrottleStep N s e s') (htr : ThrottleTrace N s' tr s'') :
      ThrottleTrace N s (e :: tr) s''

/-- A fixture transaction object (a minimal well-formed `Transaction`
response shape). -/
def fixtureTx1 : Json :=
  .obj [("version", .num 1), ("type", .num 0), ("size", .num 100),
        ("locktime", .num 0), ("vin", .arr []), ("vout", .arr []),
        ("hex", .str "aa")]

/-- A second fixture transaction object, distinguishable from the first. -/
def fixtureTx2 : Json :=
  .obj [("version", .num 1), ("type", .num 0), ("size", .num 120),
        ("locktime", .num 0), ("vin", .arr []), ("vout", .arr []),
        ("hex", .str "bb")]

/-- The field list of a fixture verbosity-2 block response containing the
two fixture transactions, in order. -/
def fixtureBlockV2Fields : List (String × Json) :=
  [("hash", .str "h"), ("confirmations", .num 1), ("size", .num 500),
   ("height", .num 10), ("version", .num 7), ("merkleroot", .str "m"),
   ("tx", .arr [fixtureTx1, fixtureTx2]), ("time", .num 5),
   ("mediantime", .num 4), ("nonce", .num 0), ("bits", .str "1d"),
   ("difficulty", .num 2), ("chainwork", .str "cw")]

/-- The decoded form of `fixtureTx1`. -/
def fixtureTx1Dec : Transaction :=
  ⟨none, 1, 0, 100, 0, [], [], "aa", none, none, none, none⟩

/-- The decoded form of `fixtureTx2`. -/
def fixtureTx2Dec : Transaction :=
  ⟨none, 1, 0, 120, 0, [], [], "bb", none, none, none, none⟩

/-- The decoded form of the fixture verbosity-2 block. -/
def fixtureBlockV2Dec : FullBlock :=
  ⟨"h", 1, 500, 10, 7, "m", "", "", [fixtureTx1Dec, fixtureTx2Dec], 5, 4, 0,
   "1d", 2, "cw", none, none, none, none⟩

/-- A fixture mempool detail record for concrete evaluations. -/
def fixtureMemPoolTx : MemPoolTx :=
  ⟨226, 5, 5, 1, 2, 1, 226, 50, 1, 226, 50, "w", ["d1"]⟩

/-- A fixture unspent-output record for concrete evaluations. -/
def fixtureTxOut : TxOut :=
  ⟨"b", 3, 5, ⟨"a", "h", some 1, some "pubkeyhash", some ["addr1"]⟩, true⟩

/-! ## Helper lemmas -/

/-- Accumulator form of decoding a JSON string array built from `l`. -/
theorem mapM_loop_asStr (l : List String) (acc : List String) :
    List.mapM.loop Json.asStr (l.map Json.str) acc = some (acc.reverse ++ l) := by
  induction l generalizing acc with
  | nil => simp [List.mapM.loop]
  | cons x xs ih => simp [List.mapM.loop, Json.asStr, ih]

/-- Decoding a JSON array of strings recovers exactly the string list. -/
theorem mapM_asStr (l : List String) : (l.map Json.str).mapM Json.asStr = some l := by
  simpa [List.mapM] using mapM_loop_asStr l []

/-- A JSON array whose head is an object never decodes as `Vec<String>`. -/
theorem mapM_loop_asStr_head_obj (fs : List (String × Json)) (rest : List Json)
    (acc : List String) :
    List.mapM.loop Json.asStr (Json.obj fs :: rest) acc = none := by
  simp [List.mapM.loop, Json.asStr]

/-! ## C2: objects matching neither input shape -/

/-- Claim C2 counterexample: the empty JSON object matches neither the
coinbase shape (no `coinbase` field) nor the ordinary shape (no `txid`,
`vout`, `scriptSig`), yet its `Vin` decode succeeds — it resolves to the
ordinary-input variant with every field absent, because every `VinTx`
field is optional.  The claim that such objects "fail with a decode
error" is false. -/
theorem vin_empty_object_decodes_cex :
    Vin.fromJson (.obj []) = some (.Tx ⟨none, none, none, none, none⟩) := by decide

/-- Claim C2 (amended): a JSON object with none of the five recognized
input fields decodes to the ordinary-input variant with every field
absent (it does not fail); a `Vin` decode fails exactly when both the
coinbase probe and the ordinary-input probe fail. -/
theorem vin_object_decode_totality (fields : List (String × Json))
    (hcb : Json.getUnique fields "coinbase" = some none)
    (htx : Json.getUnique fields "txid" = some none)
    (hv : Json.getUnique fields "vout" = some none)
    (hss : Json.getUnique fields "scriptSig" = some none)
    (hseq : Json.getUnique fields "sequence" = some none) :
    Vin.fromJson (.obj fields) = some (.Tx ⟨none, none, none, none, none⟩) ∧
    ∀ j : Json, Vin.fromJson j = none ↔
      VinCoinbase.fromJson j = none ∧ VinTx.fromJson j = none := by
  constructor
  · simp [Vin.fromJson, VinCoinbase.fromJson, VinTx.fromJson,
          Json.reqField, Json.optField, hcb, htx, hv, hss, hseq]
  · intro j
    cases hc : VinCoinbase.fromJson j with
    | some cb => simp [Vin.fromJson, hc]
    | none =>
        cases ht : VinTx.fromJson j with
        | some t => simp [Vin.fromJson, hc, ht]
        | none => simp [Vin.fromJson, hc, ht]

/-- Witness for `vin_object_decode_totality` at a concrete object with
only an unrecognized field. -/
theorem vin_object_decode_totality_witness :
    Vin.fromJson (.obj [("foo", .null)]) = some (.Tx ⟨none, none, none, none, none⟩) :=
  (vin_object_decode_totality [("foo", .null)] rfl rfl rfl rfl rfl).1

/-! ## C3: the mempool listing is decoded independently of the flag -/

/-- Claim C3 counterexample: with the flag requesting the verbose form, a
bare JSON array of strings still decodes (to the terse variant) instead
of failing, because the result is deserialized into the untagged
`RawMemPool` regardless of the flag. -/
theorem getrawmempool_verbose_flag_cex :
    getrawmempool_decode true (.arr [.str "txid1"]) = some (.TxIds ["txid1"]) := by decide

/-- Claim C3 (amended): the `getrawmempool` result is always decoded
against the whole untagged `RawMemPool` union — the verbose map probed
first, then the id list — independently of the caller-supplied flag; in
particular a bare JSON array of strings resolves to the terse variant
under either flag value. -/
theorem getrawmempool_decode_flag_independent (format : Bool) (j : Json) :
    getrawmempool_decode format j = RawMemPool.fromJson j ∧
    ∀ l : List String, getrawmempool_decode format (.arr (l.map .str)) = some (.TxIds l) := by
  refine ⟨rfl, fun l => ?_⟩
  simp [getrawmempool_decode, RawMemPool.fromJson, decodeMemPoolMap,
        Json.asList, mapM_loop_asStr]

/-! ## C4: structural resolution of the mempool listing union -/

/-- Claim C4: a bare JSON array of strings resolves to the terse
identifier-list variant; a JSON object whose every value decodes as a
mempool detail record resolves to the verbose variant; and a non-empty
JSON array of objects fails decode entirely. -/
theorem rawmempool_structural_resolution :
    (∀ l : List String, RawMemPool.fromJson (.arr (l.map .str)) = some (.TxIds l)) ∧
    (∀ (fields : List (String × Json)) (m : List (String × MemPoolTx)),
      fields.mapM (fun p => (MemPoolTx.fromJson p.2).map (fun tx => (p.1, tx))) = some m →
      RawMemPool.fromJson (.obj fields) = some (.Verbose m)) ∧
    (∀ js : List Json, (∀ j ∈ js, ∃ fs, j = Json.obj fs) → js ≠ [] →
      RawMemPool.fromJson (.arr js) = none) := by
  refine ⟨fun l => ?_, fun fields m h => ?_, fun js hobj hne => ?_⟩
  · simp [RawMemPool.fromJson, decodeMemPoolMap, Json.asList, mapM_loop_asStr]
  · simp only [List.mapM] at h
    simp [RawMemPool.fromJson, decodeMemPoolMap, h]
  · cases js with
    | nil => exact absurd rfl hne
    | cons j0 rest =>
        obtain ⟨fs, rfl⟩ := hobj j0 (by simp)
        simp [RawMemPool.fromJson, decodeMemPoolMap, Json.asList, mapM_loop_asStr_head_obj]

/-- Witness for `rawmempool_structural_resolution`: a one-entry verbose
object resolves to the verbose variant, and a one-element array of
objects fails decode. -/
theorem rawmempool_structural_resolution_witness :
    RawMemPool.fromJson (.obj [("id", fixtureMemPoolTx.toJson)])
      = some (.Verbose [("id", fixtureMemPoolTx)]) ∧
    RawMemPool.fromJson (.arr [.obj []]) = none :=
  ⟨rawmempool_structural_resolution.2.1 [("id", fixtureMemPoolTx.toJson)]
      [("id", fixtureMemPoolTx)] (by decide),
   rawmempool_structural_resolution.2.2 [.obj []]
      (fun j hj => ⟨[], by simpa using hj⟩) (List.cons_ne_nil _ _)⟩

/-! ## C1: the transaction-input probe order -/

/-- Claim C1 counterexample: (i) an object containing `coinbase`,
`sequence` and `txid` still decodes to the `Coinbase` variant — serde
ignores the unknown `txid` field, so the coinbase shape is not "chosen
only when no `txid` field is present"; (ii) an object containing
`coinbase` but no `sequence` (and no `txid`) decodes to the
ordinary-input variant, not the `Coinbase` variant, because the coinbase
shape also requires `sequence`. -/
theorem vin_coinbase_probe_ignores_txid_cex :
    Vin.fromJson (.obj [("coinbase", .str "c"), ("sequence", .num 1), ("txid", .str "t")])
      = some (.Coinbase ⟨"c", 1⟩) ∧
    Vin.fromJson (.obj [("coinbase", .str "c")])
      = some (.Tx ⟨some "c", none, none, none, none⟩) := by decide

/-- Claim C1 (amended): decoding a `Vin` probes the coinbase shape first
and falls back to the ordinary-input shape: whenever the coinbase shape
decodes it wins; whenever it fails the result is exactly the
ordinary-input decode.  Concretely, an object with a string `coinbase`
field and an integral in-range `sequence` field decodes to the
`Coinbase` variant regardless of any other fields (such as `txid`), and
an object without a `coinbase` field that decodes as an ordinary input
(e.g. with `txid`, `vout` and `scriptSig`) yields the ordinary-input
variant. -/
theorem vin_decode_probe_order (j : Json) :
    (∀ cb : VinCoinbase, VinCoinbase.fromJson j = some cb →
        Vin.fromJson j = some (.Coinbase cb)) ∧
    (VinCoinbase.fromJson j = none → Vin.fromJson j = (VinTx.fromJson j).map Vin.Tx) ∧
    (∀ (fields : List (String × Json)) (c : String) (q : Rat),
        j = .obj fields →
        Json.getUnique fields "coinbase" = some (some (.str c)) →
        Json.getUnique fields "sequence" = some (some (.num q)) →
        q.den = 1 → -(2 ^ 63) ≤ q.num → q.num < 2 ^ 63 →
        Vin.fromJson j = some (.Coinbase ⟨c, q.num⟩)) ∧
    (∀ (fields : List (String × Json)) (t : VinTx),
        j = .obj fields →
        Json.getUnique fields "coinbase" = some none →
        VinTx.fromJson j = some t →
        Vin.fromJson j = some (.Tx t)) := by
  refine ⟨fun cb h => by simp [Vin.fromJson, h], fun h => by simp [Vin.fromJson, h],
          ?_, ?_⟩
  · rintro fields c q rfl hc hs hden hlo hhi
    have hseq : Json.asI64 (.num q) = some q.num := by
      simp only [Json.asI64]
      rw [if_pos ⟨hden, hlo, hhi⟩]
    have hcb : VinCoinbase.fromJson (.obj fields) = some ⟨c, q.num⟩ := by
      simp [VinCoinbase.fromJson, Json.reqField, hc, hs, Json.asStr, hseq]
    simp [Vin.fromJson, hcb]
  · rintro fields t rfl hc ht
    have hcb : VinCoinbase.fromJson (.obj fields) = none := by
      simp [VinCoinbase.fromJson, Json.reqField, hc]
    simp [Vin.fromJson, hcb, ht]

/-- Witness for `vin_decode_probe_order`: the coinbase-shape conjunct at
an object that also carries `txid`, and the ordinary-shape conjunct at an
object with only `txid`. -/
theorem vin_decode_probe_order_witness :
    Vin.fromJson (.obj [("coinbase", .str "a"), ("sequence", .num 2), ("txid", .str "t")])
      = some (.Coinbase ⟨"a", 2⟩) ∧
    Vin.fromJson (.obj [("txid", .str "t")])
      = some (.Tx ⟨none, some "t", none, none, none⟩) :=
  ⟨(vin_decode_probe_order _).2.2.1 _ "a" 2 rfl rfl rfl (by decide) (by decide) (by decide),
   (vin_decode_probe_order _).2.2.2 _ _ rfl rfl (by decide)⟩

/-! ## C5: the UTXO lookup null-or-value resolution -/

/-- Claim C5: decoding the `gettxout` result treats JSON `null` as the
absent outcome unconditionally (the `Null` variant is probed before any
object decode), and any JSON value that decodes as a well-formed `TxOut`
object resolves to the present outcome carrying exactly that fully
populated `TxOut`. -/
theorem gettxout_null_or_value :
    gettxout_decode .null = some (.Null ()) ∧
    ∀ (j : Json) (t : TxOut), TxOut.fromJson j = some t →
      gettxout_decode j = some (.TxOut t) := by
  refine ⟨rfl, fun j t h => ?_⟩
  cases j with
  | null => simp [TxOut.fromJson] at h
  | bool b => simp [gettxout_decode, GetTxOutReply.fromJson, Json.asUnit, h]
  | num q => simp [gettxout_decode, GetTxOutReply.fromJson, Json.asUnit, h]
  | str s => simp [gettxout_decode, GetTxOutReply.fromJson, Json.asUnit, h]
  | arr xs => simp [gettxout_decode, GetTxOutReply.fromJson, Json.asUnit, h]
  | obj fields => simp [gettxout_decode, GetTxOutReply.fromJson, Json.asUnit, h]

/-- Witness for `gettxout_null_or_value` at a concrete well-formed
output object. -/
theorem gettxout_null_or_value_witness :
    gettxout_decode (.obj [("bestblock", .str "b"), ("confirmations", .num 3),
        ("value", .num 123.456),
        ("scriptPubKey", .obj [("asm", .str "a"), ("hex", .str "h")]),
        ("coinbase", .bool true)])
      = some (.TxOut ⟨"b", 3, 123.456, ⟨"a", "h", none, none, none⟩, true⟩) :=
  gettxout_null_or_value.2 _ _ rfl

/-! ## C6: the block-representation verbosity dispatch -/

/-- A successful accumulator-form `mapM` over `Option` relates inputs to
outputs pointwise and in order. -/
theorem mapM_loop_forall2 {α β : Type} (f : α → Option β) (l : List α) :
    ∀ (acc res : List β), List.mapM.loop f l acc = some res →
      ∃ l', res = acc.reverse ++ l' ∧ List.Forall₂ (fun a b => f a = some b) l l' := by
  induction l with
  | nil =>
      intro acc res h
      refine ⟨[], ?_, List.Forall₂.nil⟩
      simpa [List.mapM.loop] using h.symm
  | cons x xs ih =>
      intro acc res h
      cases hfx : f x with
      | none => simp [List.mapM.loop, hfx] at h
      | some b =>
          simp only [List.mapM.loop, hfx] at h
          obtain ⟨l', rfl, hall⟩ := ih (b :: acc) res h
          exact ⟨b :: l', by simp, List.Forall₂.cons hfx hall⟩

/-- A successful `mapM` over `Option` relates inputs to outputs pointwise
and in order. -/
theorem mapM_some_forall2 {α β : Type} (f : α → Option β) (l : List α) (res : List β)
    (h : l.mapM f = some res) : List.Forall₂ (fun a b => f a = some b) l res := by
  simp only [List.mapM] at h
  obtain ⟨l', rfl, hall⟩ := mapM_loop_forall2 f l [] res h
  simpa using hall

/-- Inside a successful `FullBlock.fieldsB`, the `tx` component is the
elementwise `Transaction` decode of the `tx` field's array. -/
theorem fieldsB_tx (fields : List (String × Json)) (ts : List Json)
    (ac fs : String) (tx : List Transaction) (time mt nonce : Int) (bits : String)
    (htx : Json.getUnique fields "tx" = some (some (.arr ts)))
    (hB : FullBlock.fieldsB fields = some (ac, fs, tx, time, mt, nonce, bits)) :
    ts.mapM Transaction.fromJson = some tx := by
  simp only [FullBlock.fieldsB, Json.reqField, htx, Json.asList, Option.bind_eq_bind,
    Option.bind_eq_some, Option.pure_def, Option.some.injEq, Prod.mk.injEq] at hB
  obtain ⟨a1, h1, a2, h2, a3, h3, a4, h4, a5, h5, a6, h6, a7, h7, heq⟩ := hB
  obtain ⟨-, -, htx', -, -, -, -⟩ := heq
  rw [← htx']
  exact h3

/-- A successful `FullBlock` decode takes its transaction list from the
elementwise decode of the `tx` field's array. -/
theorem fullBlock_fromJson_tx (fields : List (String × Json)) (ts : List Json)
    (fb : FullBlock)
    (htx : Json.getUnique fields "tx" = some (some (.arr ts)))
    (h : FullBlock.fromJson (.obj fields) = some fb) :
    ts.mapM Transaction.fromJson = some fb.tx := by
  cases hA : FullBlock.fieldsA fields with
  | none => simp [FullBlock.fromJson, hA] at h
  | some a =>
      obtain ⟨hash, confs, size, height, version, merkleroot⟩ := a
      cases hB : FullBlock.fieldsB fields with
      | none => simp [FullBlock.fromJson, hA, hB] at h
      | some b =>
          obtain ⟨ac, fs, tx, time, mt, nonce, bits⟩ := b
          cases hC : FullBlock.fieldsC fields with
          | none => simp [FullBlock.fromJson, hA, hB, hC] at h
          | some c =>
              obtain ⟨diff, cw, p, nx, sm, hp⟩ := c
              simp only [FullBlock.fromJson, hA, hB, hC, Option.bind_eq_bind,
                Option.some_bind, Option.pure_def, Option.some.injEq] at h
              have : fb.tx = tx := by rw [← h]
              rw [this]
              exact fieldsB_tx fields ts ac fs tx time mt nonce bits htx hB

/-- Claim C6: the `getblockinfo` result is decoded according to the
caller's verbosity — 0 only as the raw serialized hex string, 1 only as
the header-only `Block`, 2 only as the `FullBlock` — with no shape
guessing; and a verbosity-2 response whose `tx` field is an array decodes
to a value whose transaction list has the same length and consists of the
elementwise-decoded transactions in response order. -/
theorem getblockinfo_verbosity_dispatch :
    (∀ (j : Json) (r : GetBlockInfoReply), getblockinfo_decode 0 j = some r →
        ∃ s, j = .str s ∧ r = .Zero s) ∧
    (∀ (j : Json) (r : GetBlockInfoReply), getblockinfo_decode 1 j = some r →
        ∃ b, Block.fromJson j = some b ∧ r = .One b) ∧
    (∀ (j : Json) (r : GetBlockInfoReply), getblockinfo_decode 2 j = some r →
        ∃ fb, FullBlock.fromJson j = some fb ∧ r = .Two fb) ∧
    (∀ (fields : List (String × Json)) (ts : List Json) (fb : FullBlock),
        Json.getUnique fields "tx" = some (some (.arr ts)) →
        getblockinfo_decode 2 (.obj fields) = some (.Two fb) →
        fb.tx.length = ts.length ∧
        List.Forall₂ (fun tj t => Transaction.fromJson tj = some t) ts fb.tx) := by
  have h2 : ∀ (j : Json) (r : GetBlockInfoReply), getblockinfo_decode 2 j = some r →
      ∃ fb, FullBlock.fromJson j = some fb ∧ r = .Two fb := by
    intro j r h
    cases hfb : FullBlock.fromJson j with
    | none => simp [getblockinfo_decode, hfb] at h
    | some fb =>
        refine ⟨fb, rfl, ?_⟩
        simp [getblockinfo_decode, hfb] at h
        exact h.symm
  refine ⟨?_, ?_, h2, ?_⟩
  · intro j r h
    cases j <;> simp [getblockinfo_decode, Json.asStr] at h
    exact ⟨_, rfl, h.symm⟩
  · intro j r h
    cases hb : Block.fromJson j with
    | none => simp [getblockinfo_decode, hb] at h
    | some b =>
        refine ⟨b, rfl, ?_⟩
        simp [getblockinfo_decode, hb] at h
        exact h.symm
  · intro fields ts fb htx h
    obtain ⟨fb', hfb, heq⟩ := h2 _ _ h
    cases heq
    have hmap := fullBlock_fromJson_tx fields ts fb htx hfb
    have hall := mapM_some_forall2 Transaction.fromJson ts fb.tx hmap
    exact ⟨hall.length_eq.symm, hall⟩

/-- Witness for `getblockinfo_verbosity_dispatch`: the fixture
verbosity-2 block with two transactions decodes to a transaction list of
length two, in response order. -/
theorem getblockinfo_verbosity_dispatch_witness :
    fixtureBlockV2Dec.tx.length = 2 ∧
    List.Forall₂ (fun tj t => Transaction.fromJson tj = some t)
      [fixtureTx1, fixtureTx2] fixtureBlockV2Dec.tx :=
  getblockinfo_verbosity_dispatch.2.2.2 fixtureBlockV2Fields
    [fixtureTx1, fixtureTx2] fixtureBlockV2Dec rfl rfl

/-! ## C7: the retry policy -/

/-- A successful attempt ends the loop immediately, whatever budget remains. -/
theorem retryGo_success (work : Nat → WorkResult) (a fuel : Nat)
    (h : work a = .success) : retryGo work a fuel = ⟨.ok, a + 1, a⟩ := by
  cases fuel <;> simp [retryGo, h]

/-- A non-transient failure ends the loop immediately, whatever budget
remains: it is never retried. -/
theorem retryGo_fatal (work : Nat → WorkResult) (a fuel : Nat)
    (h : work a = .fatal) : retryGo work a fuel = ⟨.fatal, a + 1, a⟩ := by
  cases fuel <;> simp [retryGo, h]

/-- A transient failure with no retry budget left ends as exhausted. -/
theorem retryGo_transient_zero (work : Nat → WorkResult) (a : Nat)
    (h : work a = .transient) : retryGo work a 0 = ⟨.exhausted, a + 1, a⟩ := by
  simp [retryGo, h]

/-- A transient failure with budget left consumes one retry. -/
theorem retryGo_transient_succ (work : Nat → WorkResult) (a fuel : Nat)
    (h : work a = .transient) : retryGo work a (fuel + 1) = retryGo work (a + 1) fuel := by
  simp [retryGo, h]

/-- If the work fails transiently for `K` attempts from `a` and then
succeeds, and the budget covers `K` retries, the loop returns success
after attempt `a + K`. -/
theorem retryGo_ok (work : Nat → WorkResult) (K : Nat) :
    ∀ a m : Nat, (∀ i, i < K → work (a + i) = .transient) → work (a + K) = .success →
      K ≤ m → retryGo work a m = ⟨.ok, a + K + 1, a + K⟩ := by
  induction K with
  | zero =>
      intro a m _ hs _
      simpa using retryGo_success work a m (by simpa using hs)
  | succ K ih =>
      intro a m hK hs hm
      have ht : work a = .transient := by simpa using hK 0 (Nat.succ_pos K)
      cases m with
      | zero => omega
      | succ m' =>
          rw [retryGo_transient_succ work a m' ht]
          have h2 := ih (a + 1) m'
            (fun i hi => by
              rw [show a + 1 + i = a + (i + 1) by omega]
              exact hK (i + 1) (by omega))
            (by rw [show a + 1 + K = a + (K + 1) by omega]; exact hs)
            (by omega)
          rw [h2]
          congr 1 <;> omega
      
/-- If the work fails transiently for more attempts than the budget
covers, the loop exhausts the budget: `m + 1` attempts from `a`. -/
theorem retryGo_exhaust (work : Nat → WorkResult) :
    ∀ m a K : Nat, (∀ i, i < K → work (a + i) = .transient) → m < K →
      retryGo work a m = ⟨.exhausted, a + m + 1, a + m⟩ := by
  intro m
  induction m with
  | zero =>
      intro a K hK hm
      simpa using retryGo_transient_zero work a (by simpa using hK 0 hm)
  | succ m' ih =>
      intro a K hK hm
      have ht : work a = .transient := by simpa using hK 0 (by omega)
      rw [retryGo_transient_succ work a m' ht]
      cases K with
      | zero => omega
      | succ K' =>
          have h2 := ih (a + 1) K'
            (fun i hi => by
              rw [show a + 1 + i = a + (i + 1) by omega]
              exact hK (i + 1) (by omega))
            (by omega)
          rw [h2]
          congr 1 <;> omega

/-- If the work fails transiently until a non-transient failure at
attempt `a + i` within the budget, the loop stops right there. -/
theorem retryGo_fatalAt (work : Nat → WorkResult) :
    ∀ i a m : Nat, (∀ j, j < i → work (a + j) = .transient) → work (a + i) = .fatal →
      i ≤ m → retryGo work a m = ⟨.fatal, a + i + 1, a + i⟩ := by
  intro i
  induction i with
  | zero =>
      intro a m _ hf _
      simpa using retryGo_fatal work a m (by simpa using hf)
  | succ i' ih =>
      intro a m hT hf hm
      have ht : work a = .transient := by simpa using hT 0 (Nat.succ_pos i')
      cases m with
      | zero => omega
      | succ m' =>
          rw [retryGo_transient_succ work a m' ht]
          have h2 := ih (a + 1) m'
            (fun j hj => by
              rw [show a + 1 + j = a + (j + 1) by omega]
              exact hT (j + 1) (by omega))
            (by rw [show a + 1 + i' = a + (i' + 1) by omega]; exact hf)
            (by omega)
          rw [h2]
          congr 1 <;> omega

/-- The loop always waits exactly once between consecutive attempts:
one fewer wait than attempts. -/
theorem retryGo_waits (work : Nat → WorkResult) :
    ∀ fuel a : Nat, (retryGo work a fuel).waits + 1 = (retryGo work a fuel).attempts := by
  intro fuel
  induction fuel with
  | zero => intro a; cases h : work a <;> simp [retryGo, h]
  | succ fuel' ih =>
      intro a
      cases h : work a with
      | success => simp [retryGo, h]
      | transient => rw [retryGo_transient_succ work a fuel' h]; exact ih (a + 1)
      | fatal => simp [retryGo, h]

/-- Claim C7: with a unit of work that fails transiently exactly `K`
times then succeeds, a budget of `max_retries = m ≥ K` yields success
after exactly `K + 1` attempts; `m < K` yields exhausted-retries after
exactly `m + 1` attempts; `m = 0` always means exactly one attempt; a
non-transient failure is surfaced at once and never retried; and every
run waits the configured constant delay exactly once between consecutive
attempts (`waits = attempts - 1`). -/
theorem retry_policy_spec (work : Nat → WorkResult) (K m : Nat)
    (hK : ∀ i, i < K → work i = .transient) (hs : work K = .success) :
    (K ≤ m → retryRun work m = ⟨.ok, K + 1, K⟩) ∧
    (m < K → retryRun work m = ⟨.exhausted, m + 1, m⟩) ∧
    (∀ w : Nat → WorkResult, (retryRun w 0).attempts = 1) ∧
    (∀ (w : Nat → WorkResult) (i : Nat), (∀ j, j < i → w j = .transient) →
        w i = .fatal → i ≤ m → retryRun w m = ⟨.fatal, i + 1, i⟩) ∧
    (∀ (w : Nat → WorkResult) (m' : Nat),
        (retryRun w m').waits = (retryRun w m').attempts - 1) := by
  refine ⟨fun hm => ?_, fun hm => ?_, fun w => ?_, fun w i hT hf hm => ?_, fun w m' => ?_⟩
  · simpa [retryRun] using retryGo_ok work K 0 m (by simpa using hK) (by simpa using hs) hm
  · simpa [retryRun] using retryGo_exhaust work m 0 K (by simpa using hK) hm
  · cases h : w 0 <;> simp [retryRun, retryGo, h]
  · simpa [retryRun] using retryGo_fatalAt w i 0 m (by simpa using hT) (by simpa using hf) hm
  · have := retryGo_waits w m' 0
    simp [retryRun]
    omega

/-- Witness for `retry_policy_spec`: a work that fails transiently twice
then succeeds, run with budgets 3 (succeeds on the third attempt) and 1
(exhausts after two attempts), and an immediately fatal work that is not
retried. -/
theorem retry_policy_spec_witness :
    retryRun (fun n => if n < 2 then .transient else .success) 3 = ⟨.ok, 3, 2⟩ ∧
    retryRun (fun n => if n < 2 then .transient else .success) 1 = ⟨.exhausted, 2, 1⟩ ∧
    retryRun (fun _ => .fatal) 3 = ⟨.fatal, 1, 0⟩ :=
  ⟨(retry_policy_spec (fun n => if n < 2 then .transient else .success) 2 3
      (fun i hi => by simp [hi]) (by decide)).1 (by decide),
   (retry_policy_spec (fun n => if n < 2 then .transient else .success) 2 1
      (fun i hi => by simp [hi]) (by decide)).2.1 (by decide),
   (retry_policy_spec (fun n => if n < 2 then .transient else .success) 2 3
      (fun i hi => by simp [hi]) (by decide)).2.2.2.1 (fun _ => .fatal) 0
      (fun j hj => absurd hj (Nat.not_lt_zero j)) rfl (by decide)⟩

/-! ## C9: the call throttle -/

/-- One throttle step never pushes the holder count above the limit. -/
theorem throttle_step_length {N : Nat} {s : ThrottleState} {e : ThrottleEvent}
    {s' : ThrottleState} (h : ThrottleStep N s e s')
    (hle : s.holders.length ≤ N) : s'.holders.length ≤ N := by
  cases h with
  | acquire hni hlt => simpa using hlt
  | release hmem => exact le_trans (List.Sublist.length_le (List.erase_sublist _ _)) hle

/-- The holder-count bound is an invariant of every trace. -/
theorem throttle_trace_inv {N : Nat} {s : ThrottleState} {tr : List ThrottleEvent}
    {s' : ThrottleState} (h : ThrottleTrace N s tr s')
    (hle : s.holders.length ≤ N) : s'.holders.length ≤ N := by
  induction h with
  | nil => exact hle
  | cons hstep htr ih => exact ih (throttle_step_length hstep hle)

/-- Claim C9: with throttle limit `N`, at most `N` calls hold a transport
round-trip simultaneously in every state reachable from the idle state;
and from a state in which `N` calls hold their slots, any trace in which
some call acquires a slot contains an earlier release — the extra call
begins its round-trip only after one of the holders releases. -/
theorem throttle_bound_and_handoff (N : Nat) :
    (∀ (tr : List ThrottleEvent) (s : ThrottleState),
        ThrottleTrace N ⟨[]⟩ tr s → s.holders.length ≤ N) ∧
    (∀ (s : ThrottleState) (tr : List ThrottleEvent) (s' : ThrottleState)
        (pre : List ThrottleEvent) (c : Nat) (rest : List ThrottleEvent),
        s.holders.length = N → ThrottleTrace N s tr s' →
        tr = pre ++ .acquire c :: rest →
        ∃ c', ThrottleEvent.release c' ∈ pre) := by
  constructor
  · intro tr s htr
    exact throttle_trace_inv htr (by simp)
  · intro s tr s' pre c rest hfull htr htreq
    subst htreq
    cases pre with
    | nil =>
        cases htr with
        | cons hstep _ =>
            cases hstep with
            | acquire hni hlt => omega
    | cons e pre' =>
        cases htr with
        | cons hstep _ =>
            cases hstep with
            | acquire hni hlt => omega
            | release hmem => exact ⟨_, List.mem_cons_self _ _⟩

/-- Witness for `throttle_bound_and_handoff` with limit 1: a full state
`{holders := [5]}`, a trace that releases then acquires, and the idle
state taking one acquire step. -/
theorem throttle_bound_and_handoff_witness :
    (∃ c', ThrottleEvent.release c' ∈ [ThrottleEvent.release 5]) ∧
    (⟨[7]⟩ : ThrottleState).holders.length ≤ 1 :=
  ⟨(throttle_bound_and_handoff 1).2 ⟨[5]⟩ [.release 5, .acquire 7] ⟨[7]⟩
      [.release 5] 7 [] rfl
      (ThrottleTrace.cons (ThrottleStep.release (by decide))
        (ThrottleTrace.cons (ThrottleStep.acquire (by decide) (by decide))
          ThrottleTrace.nil)) rfl,
   (throttle_bound_and_handoff 1).1 [.acquire 7] ⟨[7]⟩
      (ThrottleTrace.cons (ThrottleStep.acquire (by decide) (by decide))
        ThrottleTrace.nil)⟩

/-! ## C10: serialization round-trips on the union result types -/

/-- Deserializing a serialized in-range `i64` recovers the integer. -/
theorem asI64_intCast (n : Int) (h1 : -(2 ^ 63) ≤ n) (h2 : n < 2 ^ 63) :
    Json.asI64 (.num (n : Rat)) = some n := by
  simp only [Json.asI64]
  rw [if_pos]
  · simp
  · refine ⟨by simp, by simpa using h1, by simpa using h2⟩

/-- Deserializing a serialized in-range `i32` recovers the integer. -/
theorem asI32_intCast (n : Int) (h1 : -(2 ^ 31) ≤ n) (h2 : n < 2 ^ 31) :
    Json.asI32 (.num (n : Rat)) = some n := by
  simp only [Json.asI32]
  rw [if_pos]
  · simp
  · refine ⟨by simp, by simpa using h1, by simpa using h2⟩

/-- `ScriptSig` serialization round-trips. -/
theorem scriptSig_roundtrip (s : ScriptSig) : ScriptSig.fromJson s.toJson = some s := rfl

/-- `ScriptPubKey` serialization round-trips (its only integer field is
`reqSigs`, which a real decode requires to be `i64`-ranged). -/
theorem scriptPubKey_roundtrip (s : ScriptPubKey)
    (h : ∀ n, s.req_sigs = some n → -(2 ^ 63) ≤ n ∧ n < 2 ^ 63) :
    ScriptPubKey.fromJson s.toJson = some s := by
  obtain ⟨asm, hex, rs, ty, ad⟩ := s
  cases rs with
  | none =>
      cases ty <;> cases ad <;>
        simp [ScriptPubKey.fromJson, ScriptPubKey.toJson, Json.reqField, Json.optField,
              Json.getUnique, Json.ofOption, Json.asStr, Json.asList, mapM_loop_asStr]
  | some n =>
      obtain ⟨h1, h2⟩ := h n rfl
      cases ty <;> cases ad <;>
        simp [ScriptPubKey.fromJson, ScriptPubKey.toJson, Json.reqField, Json.optField,
              Json.getUnique, Json.ofOption, Json.asStr, Json.asList, mapM_loop_asStr,
              asI64_intCast n h1 h2]

/-- `VinCoinbase` serialization round-trips for `i64`-ranged sequences. -/
theorem vinCoinbase_roundtrip (cb : VinCoinbase)
    (h1 : -(2 ^ 63) ≤ cb.sequence) (h2 : cb.sequence < 2 ^ 63) :
    VinCoinbase.fromJson cb.toJson = some cb := by
  simp [VinCoinbase.fromJson, VinCoinbase.toJson, Json.reqField, Json.getUnique,
        Json.asStr, asI64_intCast cb.sequence h1 h2]

/-- `MemPoolTx` serialization round-trips unconditionally (every numeric
field is an arbitrary-precision `serde_json::Number`). -/
theorem memPoolTx_roundtrip (v : MemPoolTx) : MemPoolTx.fromJson v.toJson = some v := by
  simp [MemPoolTx.fromJson, MemPoolTx.toJson, MemPoolTx.fieldsA, MemPoolTx.fieldsB,
        Json.reqField, Json.getUnique, Json.asNum, Json.asStr, Json.asList,
        mapM_loop_asStr]

/-- Serializing a verbose mempool map and decoding it recovers every
entry in order. -/
theorem mempool_map_loop_roundtrip (m : List (String × MemPoolTx)) :
    ∀ acc : List (String × MemPoolTx),
      List.mapM.loop (fun p => (MemPoolTx.fromJson p.2).map (fun tx => (p.1, tx)))
        (m.map (fun p => (p.1, p.2.toJson))) acc = some (acc.reverse ++ m) := by
  induction m with
  | nil => intro acc; simp [List.mapM.loop]
  | cons p rest ih =>
      intro acc
      simp [List.mapM.loop, memPoolTx_roundtrip p.2, ih]

/-- `TxOut` serialization round-trips when its integer fields are in the
ranges a real decode enforces. -/
theorem txOut_roundtrip (t : TxOut)
    (hc1 : -(2 ^ 31) ≤ t.confirmations) (hc2 : t.confirmations < 2 ^ 31)
    (hrs : ∀ n, t.script_pub_key.req_sigs = some n → -(2 ^ 63) ≤ n ∧ n < 2 ^ 63) :
    TxOut.fromJson t.toJson = some t := by
  simp [TxOut.fromJson, TxOut.toJson, Json.reqField, Json.getUnique, Json.asStr,
        Json.asNum, Json.asBool, asI32_intCast t.confirmations hc1 hc2,
        scriptPubKey_roundtrip t.script_pub_key hrs]

/-- Claim C10: serializing then deserializing round-trips on the untagged
union result types — `Vin::Coinbase`, both `RawMemPool` variants (the
verbose-map case stated for duplicate-free key sets, the only ones a Rust
`HashMap` can hold), and both `GetTxOutReply` variants — recovering the
same variant with equal contents. -/
theorem union_serialization_roundtrip :
    (∀ cb : VinCoinbase, -(2 ^ 63) ≤ cb.sequence → cb.sequence < 2 ^ 63 →
        Vin.fromJson (Vin.toJson (.Coinbase cb)) = some (.Coinbase cb)) ∧
    (∀ l : List String,
        RawMemPool.fromJson (RawMemPool.toJson (.TxIds l)) = some (.TxIds l)) ∧
    (∀ m : List (String × MemPoolTx), (m.map Prod.fst).Nodup →
        RawMemPool.fromJson (RawMemPool.toJson (.Verbose m)) = some (.Verbose m)) ∧
    (GetTxOutReply.fromJson (GetTxOutReply.toJson (.Null ())) = some (.Null ())) ∧
    (∀ t : TxOut, -(2 ^ 31) ≤ t.confirmations → t.confirmations < 2 ^ 31 →
        (∀ n, t.script_pub_key.req_sigs = some n → -(2 ^ 63) ≤ n ∧ n < 2 ^ 63) →
        GetTxOutReply.fromJson (GetTxOutReply.toJson (.TxOut t)) = some (.TxOut t)) := by
  refine ⟨fun cb h1 h2 => ?_, fun l => ?_, fun m _ => ?_, rfl, fun t hc1 hc2 hrs => ?_⟩
  · simp [Vin.toJson, Vin.fromJson, vinCoinbase_roundtrip cb h1 h2]
  · simp [RawMemPool.toJson, RawMemPool.fromJson, decodeMemPoolMap, Json.asList,
          mapM_loop_asStr]
  · simp [RawMemPool.toJson, RawMemPool.fromJson, decodeMemPoolMap,
          mempool_map_loop_roundtrip m]
  · have ht := txOut_roundtrip t hc1 hc2 hrs
    have hobj : ∃ fields, TxOut.toJson t = .obj fields := ⟨_, rfl⟩
    obtain ⟨fields, hf⟩ := hobj
    simp [GetTxOutReply.toJson, GetTxOutReply.fromJson, hf, Json.asUnit]
    rw [← hf, ht]

/-- Witness for `union_serialization_roundtrip` at concrete values of
each variant. -/
theorem union_serialization_roundtrip_witness :
    Vin.fromJson (Vin.toJson (.Coinbase ⟨"c", 1⟩)) = some (.Coinbase ⟨"c", 1⟩) ∧
    RawMemPool.fromJson (RawMemPool.toJson (.Verbose [("id", fixtureMemPoolTx)]))
      = some (.Verbose [("id", fixtureMemPoolTx)]) ∧
    GetTxOutReply.fromJson (GetTxOutReply.toJson (.TxOut fixtureTxOut))
      = some (.TxOut fixtureTxOut) :=
  ⟨union_serialization_roundtrip.1 ⟨"c", 1⟩ (by decide) (by decide),
   union_serialization_roundtrip.2.2.1 [("id", fixtureMemPoolTx)] (by decide),
   union_serialization_roundtrip.2.2.2.2 fixtureTxOut (by decide) (by decide)
     (fun n hn => by
        simp [fixtureTxOut] at hn
        omega)⟩
